import Mathlib

/-!
Verification of the cosm package manager's registry workflow and
semantic-versioning utilities, as implemented in src/commands/utils.go,
src/commands/utils-git.go and src/commands/registry.go.  Go strings are
modelled as Lean `String` / `List Char`, Go `int` as `Int` with the 64-bit
range check of `strconv.Atoi` made explicit, fallible operations return
`Except` or `Option`, and external effects (git subprocesses, the file
system) are modelled as explicit inputs and effect traces.
-/

/-! ## Modelling of Go string and integer primitives -/

/-- Numeric value of an ASCII digit character, as used by `strconv.Atoi`:
`some d` for '0'..'9', `none` otherwise. -/
def digitVal (c : Char) : Option Nat :=
  if '0' ≤ c ∧ c ≤ '9' then some (c.toNat - '0'.toNat) else none

/-- Accumulating base-10 evaluation of a digit string, `none` on the first
non-digit character. -/
def digitsVal (acc : Nat) : List Char → Option Nat
  | [] => some acc
  | c :: cs =>
    match digitVal c with
    | none => none
    | some d => digitsVal (10 * acc + d) cs

/-- Parses a non-empty all-digit string to its base-10 value; `none` on an
empty string or any non-digit character. -/
def parseDigits (l : List Char) : Option Nat :=
  match l with
  | [] => none
  | _ :: _ => digitsVal 0 l

/-- Range check of Go's `strconv.Atoi` on a 64-bit platform: values outside
the `int64` range are reported as errors (`ErrRange`). -/
def intRange (v : Int) : Option Int :=
  if -(2 ^ 63) ≤ v ∧ v ≤ 2 ^ 63 - 1 then some v else none

/-- Embeds Go's `strconv.Atoi`: an optional single leading '+' or '-'
followed by at least one decimal digit, with the `int64` range check. -/
def goAtoiChars (l : List Char) : Option Int :=
  match l with
  | [] => none
  | c :: rest =>
    if c = '-' then
      match parseDigits rest with
      | none => none
      | some m => intRange (-(m : Int))
    else if c = '+' then
      match parseDigits rest with
      | none => none
      | some m => intRange (m : Int)
    else
      match parseDigits (c :: rest) with
      | none => none
      | some m => intRange (m : Int)

/-- Embeds `strings.TrimPrefix(version, "v")`: drops one leading 'v' when
present, otherwise returns the input unchanged. -/
def trimV (l : List Char) : List Char :=
  match l with
  | [] => []
  | c :: rest => if c = 'v' then rest else c :: rest

/-- Embeds `strings.Split(s, sep)` for a single-character separator: the
list of (possibly empty) chunks between occurrences of `sep`. -/
def splitOnChar (sep : Char) : List Char → List (List Char)
  | [] => [[]]
  | c :: cs =>
    if c = sep then [] :: splitOnChar sep cs
    else
      match splitOnChar sep cs with
      | [] => [[c]]
      | p :: ps => (c :: p) :: ps

/-- Membership test for a needle being an initial segment of a haystack. -/
def charsAgree : List Char → List Char → Bool
  | [], _ => true
  | _ :: _, [] => false
  | a :: as, b :: bs => a == b && charsAgree as bs

/-- Substring search over character lists: first argument is the needle. -/
def hasSub (needle : List Char) : List Char → Bool
  | [] => needle.isEmpty
  | c :: t => charsAgree needle (c :: t) || hasSub needle t

/-- Embeds Go's `strings.Contains(hay, needle)`. -/
def containsSub (hay needle : String) : Bool :=
  hasSub needle.toList hay.toList

/-- ASCII whitespace recognised by `unicode.IsSpace` (the subset relevant
to git output). -/
def isSpaceChar (c : Char) : Bool :=
  c == ' ' || c == '\t' || c == '\n' || c == '\x0b' || c == '\x0c' || c == '\r'

/-- Embeds `strings.TrimSpace`: drops leading and trailing whitespace. -/
def trimSpace (l : List Char) : List Char :=
  ((l.dropWhile isSpaceChar).reverse.dropWhile isSpaceChar).reverse

/-! ## SemVer parsing and comparison (src/commands/utils.go) -/

/-- Embeds the Go struct `semVer` from src/commands/utils.go: a parsed
semantic version with signed integer components. -/
structure semVer where
  Major : Int
  Minor : Int
  Patch : Int
deriving DecidableEq

/-- Embeds `ParseSemVer` from src/commands/utils.go: strips an optional
leading 'v', splits on '.', requires at least two components, parses the
first two (and the third when present) with `strconv.Atoi`; the patch
defaults to 0 when absent. -/
def ParseSemVer (version : String) : Except String semVer :=
  match splitOnChar '.' (trimV version.toList) with
  | p0 :: p1 :: rest =>
    match goAtoiChars p0 with
    | none => .error ("invalid major version in '" ++ version ++ "'")
    | some major =>
      match goAtoiChars p1 with
      | none => .error ("invalid minor version in '" ++ version ++ "'")
      | some minor =>
        match rest with
        | [] => .ok { Major := major, Minor := minor, Patch := 0 }
        | p2 :: _ =>
          match goAtoiChars p2 with
          | none => .error ("invalid patch version in '" ++ version ++ "'")
          | some patch => .ok { Major := major, Minor := minor, Patch := patch }
  | _ => .error ("invalid version format '" ++ version ++ "': must be vX.Y.Z or vX.Y")

/-- Embeds `MaxSemVer` from src/commands/utils.go: parses both arguments and
compares component-wise, major first, returning the first argument on ties. -/
def MaxSemVer (v1 v2 : String) : Except String String :=
  match ParseSemVer v1 with
  | .error e => .error e
  | .ok s1 =>
    match ParseSemVer v2 with
    | .error e => .error e
    | .ok s2 =>
      if s1.Major > s2.Major then .ok v1
      else if s1.Major < s2.Major then .ok v2
      else if s1.Minor > s2.Minor then .ok v1
      else if s1.Minor < s2.Minor then .ok v2
      else if s1.Patch ≥ s2.Patch then .ok v1
      else .ok v2

deriving instance DecidableEq for Except

/-! ## Decimal numerals and their round trip through `goAtoiChars` -/

/-- Character of a single decimal digit. -/
def digitChar (d : Nat) : Char :=
  Char.ofNat ('0'.toNat + d)

/-- Standard base-10 rendering of a natural number, most significant digit
first. -/
def natDigits (n : Nat) : List Char :=
  if h : n < 10 then [digitChar n]
  else natDigits (n / 10) ++ [digitChar (n % 10)]
decreasing_by exact Nat.div_lt_self (by omega) (by omega)

/-- Decimal numeral of a natural number as a string. -/
def numeral (n : Nat) : String :=
  ⟨natDigits n⟩

theorem digitVal_digitChar {d : Nat} (h : d < 10) : digitVal (digitChar d) = some d := by
  interval_cases d <;> decide

theorem digitChar_props {d : Nat} (h : d < 10) :
    digitChar d ≠ '.' ∧ digitChar d ≠ '-' ∧ digitChar d ≠ '+' ∧ digitChar d ≠ 'v' := by
  interval_cases d <;> exact ⟨by decide, by decide, by decide, by decide⟩

theorem natDigits_ne_nil (n : Nat) : natDigits n ≠ [] := by
  rw [natDigits]
  split
  · simp
  · simp

theorem mem_natDigits (n : Nat) : ∀ c ∈ natDigits n, ∃ d, d < 10 ∧ c = digitChar d := by
  induction n using Nat.strong_induction_on with
  | _ n ih =>
    rw [natDigits]
    split
    · rename_i h
      intro c hc
      simp only [List.mem_singleton] at hc
      exact ⟨n, h, hc⟩
    · rename_i h
      intro c hc
      rw [List.mem_append] at hc
      rcases hc with hc | hc
      · exact ih (n / 10) (Nat.div_lt_self (by omega) (by omega)) c hc
      · simp only [List.mem_singleton] at hc
        exact ⟨n % 10, Nat.mod_lt _ (by omega), hc⟩

theorem natDigits_head (n : Nat) :
    ∃ d rest, d < 10 ∧ natDigits n = digitChar d :: rest := by
  induction n using Nat.strong_induction_on with
  | _ n ih =>
    rw [natDigits]
    split
    · rename_i h
      exact ⟨n, [], h, rfl⟩
    · rename_i h
      obtain ⟨d, rest, hd, heq⟩ := ih (n / 10) (Nat.div_lt_self (by omega) (by omega))
      exact ⟨d, rest ++ [digitChar (n % 10)], hd, by rw [heq]; rfl⟩

theorem digitsVal_append (l1 l2 : List Char) :
    ∀ acc, digitsVal acc (l1 ++ l2) =
      match digitsVal acc l1 with
      | none => none
      | some m => digitsVal m l2 := by
  induction l1 with
  | nil => intro acc; rfl
  | cons c cs ih =>
    intro acc
    simp only [List.cons_append, digitsVal]
    cases digitVal c with
    | none => rfl
    | some d => exact ih (10 * acc + d)

theorem digitsVal_natDigits (n : Nat) :
    ∀ acc, digitsVal acc (natDigits n) = some (acc * 10 ^ (natDigits n).length + n) := by
  induction n using Nat.strong_induction_on with
  | _ n ih =>
    intro acc
    rw [natDigits]
    split
    · rename_i h
      simp only [digitsVal, digitVal_digitChar h, List.length_singleton]
      congr 1
      ring
    · rename_i h
      rw [digitsVal_append]
      have hlt : n / 10 < n := Nat.div_lt_self (by omega) (by omega)
      rw [ih (n / 10) hlt acc]
      simp only [digitsVal, digitVal_digitChar (Nat.mod_lt n (by omega : (0:Nat) < 10)),
        List.length_append, List.length_singleton]
      congr 1
      have hdm : 10 * (n / 10) + n % 10 = n := by omega
      calc 10 * (acc * 10 ^ (natDigits (n / 10)).length + n / 10) + n % 10
          = acc * (10 ^ (natDigits (n / 10)).length * 10) + (10 * (n / 10) + n % 10) := by ring
        _ = acc * 10 ^ ((natDigits (n / 10)).length + 1) + n := by rw [pow_succ, hdm]

theorem parseDigits_natDigits (n : Nat) : parseDigits (natDigits n) = some n := by
  obtain ⟨d, rest, _, heq⟩ := natDigits_head n
  rw [parseDigits.eq_def, heq, ← heq, digitsVal_natDigits n 0]
  simp only [Nat.zero_mul, Nat.zero_add]
  rw [heq]

theorem goAtoiChars_natDigits {n : Nat} (h : n < 2 ^ 63) :
    goAtoiChars (natDigits n) = some (n : Int) := by
  obtain ⟨d, rest, hd, heq⟩ := natDigits_head n
  obtain ⟨_, hdash, hplus, _⟩ := digitChar_props hd
  rw [goAtoiChars.eq_def, heq, ← heq]
  rw [heq]
  simp only [if_neg hdash, if_neg hplus, ← heq, parseDigits_natDigits n]
  simp only [intRange]
  rw [if_pos]
  constructor
  · have : (0 : Int) ≤ (n : Int) := Int.ofNat_nonneg n
    omega
  · have : (n : Int) < 2 ^ 63 := by exact_mod_cast h
    omega

theorem dot_not_mem_natDigits (n : Nat) : '.' ∉ natDigits n := by
  intro hmem
  obtain ⟨d, hd, heq⟩ := mem_natDigits n '.' hmem
  exact (digitChar_props hd).1 heq.symm

/-! ## Properties of `splitOnChar` -/

theorem splitOnChar_ne_nil (sep : Char) (l : List Char) : splitOnChar sep l ≠ [] := by
  cases l with
  | nil => simp [splitOnChar]
  | cons c cs =>
    simp only [splitOnChar]
    split
    · simp
    · split <;> simp

theorem splitOnChar_not_mem {sep : Char} {l : List Char} (h : sep ∉ l) :
    splitOnChar sep l = [l] := by
  induction l with
  | nil => rfl
  | cons c cs ih =>
    simp only [List.mem_cons, not_or] at h
    have hcs : c ≠ sep := fun hc => h.1 hc.symm
    simp only [splitOnChar, if_neg hcs]
    rw [ih h.2]

theorem splitOnChar_append_sep {sep : Char} {a : List Char} (b : List Char) (h : sep ∉ a) :
    splitOnChar sep (a ++ sep :: b) = a :: splitOnChar sep b := by
  induction a with
  | nil => simp [splitOnChar]
  | cons c cs ih =>
    simp only [List.mem_cons, not_or] at h
    have hcs : c ≠ sep := fun hc => h.1 hc.symm
    simp only [List.cons_append, splitOnChar, List.append_eq, if_neg hcs]
    rw [ih h.2]

theorem toList_append (a b : String) : (a ++ b).toList = a.toList ++ b.toList := by
  cases a
  cases b
  rfl

theorem trimV_cons_v (l : List Char) : trimV ('v' :: l) = l := by
  simp [trimV]

theorem split_two {A B : List Char} (hA : '.' ∉ A) (hB : '.' ∉ B) :
    splitOnChar '.' (A ++ '.' :: B) = [A, B] := by
  rw [splitOnChar_append_sep _ hA, splitOnChar_not_mem hB]

theorem split_three {A B C : List Char} (hA : '.' ∉ A) (hB : '.' ∉ B) (hC : '.' ∉ C) :
    splitOnChar '.' (A ++ '.' :: (B ++ '.' :: C)) = [A, B, C] := by
  rw [splitOnChar_append_sep _ hA, splitOnChar_append_sep _ hB, splitOnChar_not_mem hC]

theorem ParseSemVer_split2 {version : String} {p0 p1 : List Char} {x y : Int}
    (hs : splitOnChar '.' (trimV version.toList) = [p0, p1])
    (h0 : goAtoiChars p0 = some x) (h1 : goAtoiChars p1 = some y) :
    ParseSemVer version = .ok ⟨x, y, 0⟩ := by
  simp only [ParseSemVer, hs, h0, h1]

theorem ParseSemVer_split3 {version : String} {p0 p1 p2 : List Char} {r : List (List Char)}
    {x y z : Int}
    (hs : splitOnChar '.' (trimV version.toList) = p0 :: p1 :: p2 :: r)
    (h0 : goAtoiChars p0 = some x) (h1 : goAtoiChars p1 = some y)
    (h2 : goAtoiChars p2 = some z) :
    ParseSemVer version = .ok ⟨x, y, z⟩ := by
  simp only [ParseSemVer, hs, h0, h1, h2]

theorem ParseSemVer_split3_err {version : String} {p0 p1 p2 : List Char} {r : List (List Char)}
    (hs : splitOnChar '.' (trimV version.toList) = p0 :: p1 :: p2 :: r)
    (h2 : goAtoiChars p2 = none) :
    (ParseSemVer version).isOk = false := by
  simp only [ParseSemVer, hs, h2]
  cases h0 : goAtoiChars p0 <;> cases h1 : goAtoiChars p1 <;> rfl

/-- Success condition of `ParseSemVer`, as the spec states it: at least two
dot-separated components after stripping the optional 'v', with the first
two and (when present) the third accepted by `strconv.Atoi`. -/
def parseOK (version : String) : Prop :=
  match splitOnChar '.' (trimV version.toList) with
  | p0 :: p1 :: rest =>
    (goAtoiChars p0).isSome = true ∧ (goAtoiChars p1).isSome = true ∧
      ∀ p2 r, rest = p2 :: r → (goAtoiChars p2).isSome = true
  | _ => False

theorem ParseSemVer_ok_iff (v : String) :
    (∃ s, ParseSemVer v = .ok s) ↔ parseOK v := by
  unfold ParseSemVer parseOK
  cases hs : splitOnChar '.' (trimV v.toList) with
  | nil => simp
  | cons p0 t =>
    cases t with
    | nil => simp
    | cons p1 rest =>
      cases h0 : goAtoiChars p0 with
      | none => simp [h0]
      | some x =>
        cases h1 : goAtoiChars p1 with
        | none => simp [h0, h1]
        | some y =>
          cases rest with
          | nil => simp [h0, h1]
          | cons p2 r =>
            cases h2 : goAtoiChars p2 with
            | none => simp [h0, h1, h2]
            | some z => simp [h0, h1, h2]

theorem toList_vXY (a b : String) :
    ("v" ++ a ++ "." ++ b).toList = 'v' :: (a.toList ++ '.' :: b.toList) := by
  simp only [toList_append, List.append_assoc]
  rfl

theorem toList_vXYZ (a b c : String) :
    ("v" ++ a ++ "." ++ b ++ "." ++ c).toList
      = 'v' :: (a.toList ++ '.' :: (b.toList ++ '.' :: c.toList)) := by
  simp only [toList_append, List.append_assoc]
  rfl

/-- Lexicographic strict order on parsed versions, major most significant,
as the spec words the comparison contract. -/
def specLexLt (a b : semVer) : Prop :=
  a.Major < b.Major ∨
    (a.Major = b.Major ∧
      (a.Minor < b.Minor ∨ (a.Minor = b.Minor ∧ a.Patch < b.Patch)))

instance (a b : semVer) : Decidable (specLexLt a b) := by
  unfold specLexLt
  infer_instance

/-- C4: the semantic-version parser strips an optional leading 'v', splits on
'.', returns (major, minor, patch) with patch defaulting to 0 when absent,
succeeds exactly when there are at least two dot-separated components whose
first two (and third when present) parse as Go integers, and round-trips
every valid "vX.Y" and "vX.Y.Z" exactly. -/
theorem parseSemVer_contract (v : String) (X Y Z : Nat)
    (hX : X < 2 ^ 63) (hY : Y < 2 ^ 63) (hZ : Z < 2 ^ 63) :
    ParseSemVer ("v" ++ numeral X ++ "." ++ numeral Y) = .ok ⟨(X : Int), (Y : Int), 0⟩ ∧
    ParseSemVer ("v" ++ numeral X ++ "." ++ numeral Y ++ "." ++ numeral Z)
      = .ok ⟨(X : Int), (Y : Int), (Z : Int)⟩ ∧
    ((∃ s, ParseSemVer v = .ok s) ↔ parseOK v) := by
  refine ⟨?_, ?_, ParseSemVer_ok_iff v⟩
  · apply ParseSemVer_split2 _ (goAtoiChars_natDigits hX) (goAtoiChars_natDigits hY)
    rw [toList_vXY, trimV_cons_v]
    exact split_two (dot_not_mem_natDigits X) (dot_not_mem_natDigits Y)
  · have hs : splitOnChar '.'
        (trimV ("v" ++ numeral X ++ "." ++ numeral Y ++ "." ++ numeral Z).toList)
        = [natDigits X, natDigits Y, natDigits Z] := by
      rw [toList_vXYZ, trimV_cons_v]
      exact split_three (dot_not_mem_natDigits X) (dot_not_mem_natDigits Y)
        (dot_not_mem_natDigits Z)
    exact ParseSemVer_split3 hs (goAtoiChars_natDigits hX) (goAtoiChars_natDigits hY)
      (goAtoiChars_natDigits hZ)

/-- Witness for C4 at X = 1, Y = 2, Z = 3. -/
theorem parseSemVer_contract_witness :
    ParseSemVer ("v" ++ numeral 1 ++ "." ++ numeral 2) = .ok ⟨1, 2, 0⟩ ∧
    ParseSemVer ("v" ++ numeral 1 ++ "." ++ numeral 2 ++ "." ++ numeral 3) = .ok ⟨1, 2, 3⟩ :=
  ⟨(parseSemVer_contract "v1.2" 1 2 3 (by decide) (by decide) (by decide)).1,
   (parseSemVer_contract "v1.2" 1 2 3 (by decide) (by decide) (by decide)).2.1⟩

/-- C5: `MaxSemVer` returns the argument that is not lexicographically less
than the other, preferring the first argument when the parsed triples are
equal. -/
theorem maxSemVer_lexicographic (v1 v2 : String) (s1 s2 : semVer)
    (h1 : ParseSemVer v1 = .ok s1) (h2 : ParseSemVer v2 = .ok s2) :
    MaxSemVer v1 v2 = .ok (if specLexLt s1 s2 then v2 else v1) := by
  rcases s1 with ⟨a, b, c⟩
  rcases s2 with ⟨d, e, f⟩
  simp only [MaxSemVer, h1, h2, specLexLt]
  dsimp only
  split_ifs <;> first | rfl | (exfalso; omega)

/-- Witness for C5: the three concrete examples from the spec. -/
theorem maxSemVer_lexicographic_witness :
    MaxSemVer "v1.2.0" "v1.9.0" = .ok "v1.9.0" ∧
    MaxSemVer "v2.0.0" "v1.9.9" = .ok "v2.0.0" ∧
    MaxSemVer "v1.0.0" "v1.0.0" = .ok "v1.0.0" := by
  refine ⟨?_, ?_, ?_⟩
  · have h := maxSemVer_lexicographic "v1.2.0" "v1.9.0" ⟨1, 2, 0⟩ ⟨1, 9, 0⟩
      (by decide) (by decide)
    rw [if_pos (by decide)] at h
    exact h
  · have h := maxSemVer_lexicographic "v2.0.0" "v1.9.9" ⟨2, 0, 0⟩ ⟨1, 9, 9⟩
      (by decide) (by decide)
    rw [if_neg (by decide)] at h
    exact h
  · have h := maxSemVer_lexicographic "v1.0.0" "v1.0.0" ⟨1, 0, 0⟩ ⟨1, 0, 0⟩
      (by decide) (by decide)
    rw [if_neg (by decide)] at h
    exact h

/-- C6 counterexample: a '-alpha' suffix attached to the patch component is
not dropped; `strconv.Atoi` rejects "3-alpha", so "v1.2.3-alpha" fails to
parse, contrary to the claim that such inputs parse successfully. -/
theorem parseSemVer_suffix_counterexample :
    (ParseSemVer "v1.2.3-alpha").isOk = false ∧ ParseSemVer "v1.2.3.4" = .ok ⟨1, 2, 3⟩ :=
  ⟨by decide, by decide⟩

/-- C6 (amended): dot-separated components beyond the third are ignored, so
e.g. "v1.2.3.4" parses to (1, 2, 3); but a pre-release/build suffix attached
to one of the first three components (e.g. "3-alpha") makes integer parsing
of that component fail, so such inputs are rejected rather than truncated. -/
theorem parseSemVer_extra_components (version : String) (p0 p1 p2 : List Char)
    (r : List (List Char)) (x y : Int)
    (hs : splitOnChar '.' (trimV version.toList) = p0 :: p1 :: p2 :: r)
    (h0 : goAtoiChars p0 = some x) (h1 : goAtoiChars p1 = some y) :
    (∀ z : Int, goAtoiChars p2 = some z → ParseSemVer version = .ok ⟨x, y, z⟩) ∧
    (goAtoiChars p2 = none → (ParseSemVer version).isOk = false) := by
  constructor
  · intro z h2
    exact ParseSemVer_split3 hs h0 h1 h2
  · intro h2
    exact ParseSemVer_split3_err hs h2

/-- Witness for C6 (amended) at "v1.2.3.4" (fourth component ignored) and
"v1.2.3-alpha" (suffixed patch component rejected). -/
theorem parseSemVer_extra_components_witness :
    ParseSemVer "v1.2.3.4" = .ok ⟨1, 2, 3⟩ ∧ (ParseSemVer "v1.2.3-alpha").isOk = false :=
  ⟨(parseSemVer_extra_components "v1.2.3.4" ['1'] ['2'] ['3'] [['4']] 1 2
      (by decide) (by decide) (by decide)).1 3 (by decide),
   (parseSemVer_extra_components "v1.2.3-alpha" ['1'] ['2']
      ['3', '-', 'a', 'l', 'p', 'h', 'a'] [] 1 2
      (by decide) (by decide) (by decide)).2 (by decide)⟩

/-- C10: the parser accepts signed integer components with `strconv.Atoi`
semantics, so components such as "-1" or "+2" are parsed to their signed
values rather than rejected. -/
theorem parseSemVer_signed_components (version : String) (p0 p1 : List Char)
    (rest : List (List Char)) (m n : Int)
    (hs : splitOnChar '.' (trimV version.toList) = p0 :: p1 :: rest)
    (h0 : goAtoiChars p0 = some m) (h1 : goAtoiChars p1 = some n) :
    (rest = [] → ParseSemVer version = .ok ⟨m, n, 0⟩) ∧
    (∀ p2 r k, rest = p2 :: r → goAtoiChars p2 = some k →
      ParseSemVer version = .ok ⟨m, n, k⟩) := by
  constructor
  · intro hr
    subst hr
    exact ParseSemVer_split2 hs h0 h1
  · intro p2 r k hr h2
    subst hr
    exact ParseSemVer_split3 hs h0 h1 h2

/-- Witness for C10 at the signed inputs "v-1.2" and "v1.-2.3". -/
theorem parseSemVer_signed_components_witness :
    ParseSemVer "v-1.2" = .ok ⟨-1, 2, 0⟩ ∧ ParseSemVer "v1.-2.3" = .ok ⟨1, -2, 3⟩ :=
  ⟨(parseSemVer_signed_components "v-1.2" ['-', '1'] ['2'] [] (-1) 2
      (by decide) (by decide) (by decide)).1 rfl,
   (parseSemVer_signed_components "v1.-2.3" ['1'] ['-', '2'] [['3']] 1 (-2)
      (by decide) (by decide) (by decide)).2 ['3'] [] 3 rfl (by decide)⟩

/-! ## Git command proxy (src/commands/utils-git.go) -/

/-- Embeds `GitCommand` from src/commands/utils-git.go.  The external
process run is modelled by its observable result: the combined output
`runOutput` and a failure flag `runFailed`.  The return value pairs the
output the caller sees with an error flag (`true` means an error is
returned). -/
def GitCommand (dir subcommand : String) (runOutput : String) (runFailed : Bool) :
    String × Bool :=
  if subcommand = "" then ("", true)
  else if runFailed && containsSub runOutput "nothing to commit" && subcommand == "commit" then
    (runOutput, false)
  else (runOutput, runFailed)

/-- C7: a failing "commit" whose captured output mentions "nothing to
commit" is treated as success; this special case applies only to "commit",
and every other failing subcommand (and the empty subcommand) surfaces an
error, while non-failing non-empty subcommands do not. -/
theorem gitCommand_nothing_to_commit (dir sub output : String) :
    ((GitCommand dir "commit" output true).2 = !containsSub output "nothing to commit") ∧
    (sub ≠ "commit" → (GitCommand dir sub output true).2 = true) ∧
    (sub ≠ "" → (GitCommand dir sub output false).2 = false) := by
  refine ⟨?_, ?_, ?_⟩
  · simp only [GitCommand]
    rw [if_neg (by decide)]
    cases hc : containsSub output "nothing to commit" <;> simp [hc]
  · intro hne
    simp only [GitCommand]
    split
    · rfl
    · rw [if_neg]
      simp only [Bool.and_eq_true, beq_iff_eq, Bool.true_and, not_and]
      intro _
      exact hne
  · intro hne
    simp only [GitCommand, if_neg hne]
    simp

/-- Witness for C7: a failing commit with "nothing to commit" in its output
succeeds; a failing "push" with the same output still errors; a successful
"status" run stays successful. -/
theorem gitCommand_nothing_to_commit_witness :
    (GitCommand "/repo" "commit" "nothing to commit, working tree clean" true).2 = false ∧
    (GitCommand "/repo" "push" "nothing to commit, working tree clean" true).2 = true ∧
    (GitCommand "/repo" "status" "" false).2 = false := by
  refine ⟨?_, ?_, ?_⟩
  · have h := (gitCommand_nothing_to_commit "/repo" "push"
      "nothing to commit, working tree clean").1
    rw [h]
    decide
  · exact (gitCommand_nothing_to_commit "/repo" "push"
      "nothing to commit, working tree clean").2.1 (by decide)
  · exact (gitCommand_nothing_to_commit "/repo" "status" "").2.2 (by decide)

/-! ## Version catalog update (src/commands/registry.go, updateVersionsList) -/

/-- Embeds the inner membership loop of `updateVersionsList`: scans
`versions` left to right for `tag`. -/
def versionExistsIn (versions : List String) (tag : String) : Bool :=
  match versions with
  | [] => false
  | v :: rest => if v = tag then true else versionExistsIn rest tag

/-- Embeds the catalog-update loop of `updateVersionsList` from
src/commands/registry.go: each tag of `tagsToAdd` is appended to the
accumulated list unless already present in it.  The `existing` argument is
the catalog read from versions.json (empty when the file is absent). -/
def updateVersionsList (existing : List String) (tagsToAdd : List String) : List String :=
  match tagsToAdd with
  | [] => existing
  | t :: rest =>
    updateVersionsList (if versionExistsIn existing t then existing else existing ++ [t]) rest

/-- Tags that the spec says the update appends: those of `tags`, in first
occurrence order, that are not already in `seen`. -/
def specNewTags (seen : List String) : List String → List String
  | [] => []
  | t :: rest =>
    if t ∈ seen then specNewTags seen rest
    else t :: specNewTags (seen ++ [t]) rest

theorem versionExistsIn_iff (l : List String) (x : String) :
    versionExistsIn l x = true ↔ x ∈ l := by
  induction l with
  | nil => simp [versionExistsIn]
  | cons v rest ih =>
    simp only [versionExistsIn]
    by_cases hv : v = x
    · simp [hv]
    · simp only [if_neg hv, ih, List.mem_cons]
      constructor
      · exact Or.inr
      · rintro (h | h)
        · exact absurd h.symm hv
        · exact h

theorem updateVersionsList_eq_append (tags : List String) :
    ∀ existing, updateVersionsList existing tags = existing ++ specNewTags existing tags := by
  induction tags with
  | nil => intro existing; simp [updateVersionsList, specNewTags]
  | cons t rest ih =>
    intro existing
    simp only [updateVersionsList, specNewTags]
    by_cases hmem : t ∈ existing
    · rw [if_pos ((versionExistsIn_iff existing t).mpr hmem), if_pos hmem, ih existing]
    · rw [if_neg (fun hv => hmem ((versionExistsIn_iff existing t).mp hv)), if_neg hmem,
        ih (existing ++ [t]), List.append_assoc]
      rfl

theorem updateVersionsList_nodup (tags : List String) :
    ∀ existing, existing.Nodup → (updateVersionsList existing tags).Nodup := by
  induction tags with
  | nil => intro existing h; exact h
  | cons t rest ih =>
    intro existing h
    simp only [updateVersionsList]
    by_cases hmem : t ∈ existing
    · rw [if_pos ((versionExistsIn_iff existing t).mpr hmem)]
      exact ih existing h
    · rw [if_neg (fun hv => hmem ((versionExistsIn_iff existing t).mp hv))]
      refine ih (existing ++ [t]) ?_
      simp [List.nodup_append, h, hmem]

/-- C3: the catalog update keeps the existing entries unchanged and in
order, appends exactly the to-add tags not already present in
first-occurrence order, and preserves uniqueness of the catalog for any
input tag list. -/
theorem updateVersionsList_spec (existing tags : List String) :
    updateVersionsList existing tags = existing ++ specNewTags existing tags ∧
    (existing.Nodup → (updateVersionsList existing tags).Nodup) :=
  ⟨updateVersionsList_eq_append tags existing, updateVersionsList_nodup tags existing⟩

/-- Witness for C3 at a catalog with a duplicate and an already-present tag
in the to-add list. -/
theorem updateVersionsList_spec_witness :
    updateVersionsList ["v1.0.0", "v1.1.0"] ["v1.1.0", "v2.0.0", "v2.0.0"]
      = ["v1.0.0", "v1.1.0"]
        ++ specNewTags ["v1.0.0", "v1.1.0"] ["v1.1.0", "v2.0.0", "v2.0.0"] ∧
    (updateVersionsList ["v1.0.0", "v1.1.0"] ["v1.1.0", "v2.0.0", "v2.0.0"]).Nodup :=
  ⟨(updateVersionsList_spec ["v1.0.0", "v1.1.0"] ["v1.1.0", "v2.0.0", "v2.0.0"]).1,
   (updateVersionsList_spec ["v1.0.0", "v1.1.0"] ["v1.1.0", "v2.0.0", "v2.0.0"]).2
     (by decide)⟩

/-! ## Version-tag collection during package registration
(src/commands/registry.go, validateAndCollectVersionTags) -/

/-- Git side effects issued by the tag-collection step. -/
inductive GitEffect
  | createTag (tag : String)
  | pushTag (tag : String)
deriving DecidableEq

/-- Observable behaviour of the external git invocations made by
`validateAndCollectVersionTags`: result of `git tag`, and whether the
`git tag <v>` and `git push origin <v>` calls of the release branch fail. -/
structure TagEnv where
  tagListFails : Bool
  tagListOutput : String
  createTagFails : Bool
  pushTagFails : Bool

/-- Embeds `strings.HasPrefix(tag, "v")`. -/
def startsWithV : List Char → Bool
  | [] => false
  | c :: _ => c == 'v'

/-- Tag filter of `validateAndCollectVersionTags`: starts with 'v' and has
at least two dot-separated components. -/
def isValidTag (tag : List Char) : Bool :=
  startsWithV tag && decide (2 ≤ (splitOnChar '.' tag).length)

/-- Embeds the append loop that collects the valid tags. -/
def collectValidTags (acc : List (List Char)) : List (List Char) → List (List Char)
  | [] => acc
  | t :: rest => collectValidTags (if isValidTag t then acc ++ [t] else acc) rest

/-- Embeds `validateAndCollectVersionTags` from src/commands/registry.go:
when `git tag` fails or prints nothing, the manifest version is required,
tagged and pushed (each failure aborting), and returned as a singleton;
otherwise the listed tags are filtered by `isValidTag`, with an error when
none survive.  Returns the resulting tag set and the git effects issued. -/
def validateAndCollectVersionTags (env : TagEnv) (packageVersion : String) :
    Except String (List (List Char)) × List GitEffect :=
  if env.tagListFails || (trimSpace env.tagListOutput.toList).isEmpty then
    if packageVersion = "" then (.error "Project.json has no version specified", [])
    else if env.createTagFails then
      (.error "error tagging version", [.createTag packageVersion])
    else if env.pushTagFails then
      (.error "error pushing tag", [.createTag packageVersion, .pushTag packageVersion])
    else (.ok [packageVersion.toList], [.createTag packageVersion, .pushTag packageVersion])
  else
    let valid := collectValidTags [] (splitOnChar '\n' (trimSpace env.tagListOutput.toList))
    if valid.isEmpty then (.error "no valid version tags found", [])
    else (.ok valid, [])

theorem collectValidTags_eq_filter (l : List (List Char)) :
    ∀ acc, collectValidTags acc l = acc ++ l.filter isValidTag := by
  induction l with
  | nil => intro acc; simp [collectValidTags]
  | cons t rest ih =>
    intro acc
    simp only [collectValidTags, List.filter]
    cases ht : isValidTag t with
    | false => rw [if_neg (by simp [ht])]; exact ih acc
    | true => rw [if_pos (by simp [ht])]; rw [ih (acc ++ [t]), List.append_assoc]; rfl

/-- All-digit non-empty component. -/
def digitsOnly (l : List Char) : Bool :=
  !l.isEmpty && l.all fun c => decide ('0' ≤ c ∧ c ≤ '9')

/-- Tag pattern named by the claim: `v<num>.<num>(.<num>)?`. -/
def specNumericTag (tag : List Char) : Bool :=
  match tag with
  | 'v' :: rest =>
    match splitOnChar '.' rest with
    | [a, b] => digitsOnly a && digitsOnly b
    | [a, b, c] => digitsOnly a && digitsOnly b && digitsOnly c
    | _ => false
  | _ => false

/-- C1 counterexample: with listed tags "v1.2" and "va.b" the code registers
both, although only "v1.2" matches the numeric pattern `v<num>.<num>(.<num>)?`;
and with the single non-empty listing "foo" it fails instead of synthesizing
a tag from the manifest version. -/
theorem validateTags_counterexample :
    (validateAndCollectVersionTags ⟨false, "v1.2\nva.b", false, false⟩ "v1.0.0").1
      = .ok ["v1.2".toList, "va.b".toList] ∧
    specNumericTag "va.b".toList = false ∧
    specNumericTag "v1.2".toList = true ∧
    (validateAndCollectVersionTags ⟨false, "foo", false, false⟩ "v1.0.0")
      = (.error "no valid version tags found", []) := by
  refine ⟨by decide, by decide, by decide, by decide⟩

/-- C1 (amended): when the tag listing succeeds with non-empty output, the
registered set is exactly the listed tags that start with 'v' and split into
at least two dot components — numeric or not — in their listed order, with
an error and no git effects when none qualify; only when the listing fails
or is empty is a single tag synthesized from the manifest version, created
and pushed, and returned as a singleton. -/
theorem validateTags_amended (env : TagEnv) (version : String) :
    (env.tagListFails = false → trimSpace env.tagListOutput.toList ≠ [] →
      ((splitOnChar '\n' (trimSpace env.tagListOutput.toList)).filter isValidTag ≠ [] →
        validateAndCollectVersionTags env version
          = (.ok ((splitOnChar '\n' (trimSpace env.tagListOutput.toList)).filter isValidTag),
             [])) ∧
      ((splitOnChar '\n' (trimSpace env.tagListOutput.toList)).filter isValidTag = [] →
        validateAndCollectVersionTags env version
          = (.error "no valid version tags found", []))) ∧
    ((env.tagListFails = true ∨ trimSpace env.tagListOutput.toList = []) →
      version ≠ "" → env.createTagFails = false → env.pushTagFails = false →
      validateAndCollectVersionTags env version
        = (.ok [version.toList], [.createTag version, .pushTag version])) := by
  constructor
  · intro hf hne
    have hemp : (trimSpace env.tagListOutput.toList).isEmpty = false := by
      cases h : trimSpace env.tagListOutput.toList with
      | nil => exact absurd h hne
      | cons a t => rfl
    have hcond : (env.tagListFails || (trimSpace env.tagListOutput.toList).isEmpty) = false := by
      rw [hf, hemp]
      rfl
    constructor
    · intro hvne
      have hlemma : (List.filter isValidTag
          (splitOnChar '\n' (trimSpace env.tagListOutput.toList))).isEmpty = false := by
        cases hq : List.filter isValidTag (splitOnChar '\n' (trimSpace env.tagListOutput.toList)) with
        | nil => exact absurd hq hvne
        | cons a t => rfl
      simp only [validateAndCollectVersionTags, hcond, Bool.false_eq_true, if_false,
        collectValidTags_eq_filter, List.nil_append, hlemma]
    · intro hveq
      simp only [validateAndCollectVersionTags, hcond, Bool.false_eq_true, if_false,
        collectValidTags_eq_filter, List.nil_append, hveq]
      rfl
  · intro hfe hv hc hp
    have hcond : (env.tagListFails || (trimSpace env.tagListOutput.toList).isEmpty) = true := by
      rcases hfe with h | h
      · rw [h]; rfl
      · rw [h]; simp
    simp only [validateAndCollectVersionTags, hcond, if_true, if_neg hv, hc, hp,
      Bool.false_eq_true, if_false]

/-- Witness for C1 (amended): a listing containing one conforming and one
non-conforming tag keeps exactly the conforming ones; an empty listing
synthesizes, creates and pushes the manifest version. -/
theorem validateTags_amended_witness :
    validateAndCollectVersionTags ⟨false, "v1.2\nfoo\nv2.0.1", false, false⟩ "v1.0.0"
      = (.ok ["v1.2".toList, "v2.0.1".toList], []) ∧
    validateAndCollectVersionTags ⟨true, "", false, false⟩ "v1.0.0"
      = (.ok ["v1.0.0".toList], [.createTag "v1.0.0", .pushTag "v1.0.0"]) := by
  constructor
  · have h := ((validateTags_amended ⟨false, "v1.2\nfoo\nv2.0.1", false, false⟩
      "v1.0.0").1 rfl (by decide)).1 (by decide)
    rw [h]
    decide
  · exact (validateTags_amended ⟨true, "", false, false⟩ "v1.0.0").2
      (Or.inl rfl) (by decide) rfl rfl

/-! ## Registry initialization (src/commands/registry.go, RegistryInit) -/

/-- File-system and git effects issued by `RegistryInit`, in order. -/
inductive InitEffect
  | cloneRepo (url dir : String)
  | writeIndex (contents : String)
  | writeRegistryMeta (contents : String)
  | removeDir (dir : String)
  | gitCommit
  | gitPush
deriving DecidableEq

/-- State touched by `RegistryInit`: the raw bytes of registries.json
(`none` when the file does not exist) and the trace of effects issued. -/
structure InitWorld where
  indexFile : Option String
  log : List InitEffect
deriving DecidableEq

/-- External collaborators of `RegistryInit`: JSON encoding/decoding of the
registries index, JSON encoding of the fresh registry descriptor (name,
UUID, git URL, empty package map), the freshly generated UUID, and the
outcomes of the git subprocesses. -/
structure InitEnv where
  decodeNames : String → Option (List String)
  encodeNames : List String → String
  encodeRegistry : String → String → String → String
  newUUID : String
  cloneFails : Bool
  nonEmptyFile : Option String
  commitFails : Bool
  pushFails : Bool

/-- Embeds `loadAndCheckRegistries` from src/commands/registry.go: an absent
registries.json yields an empty name list, an unparsable one an error, and a
name already present in the decoded list the "already exists" error. -/
def loadAndCheckRegistries (indexFile : Option String)
    (decode : String → Option (List String)) (registryName : String) :
    Except String (List String) :=
  match indexFile with
  | none => .ok []
  | some contents =>
    match decode contents with
    | none => .error "failed to parse registries.json"
    | some names =>
      if registryName ∈ names then .error ("registry '" ++ registryName ++ "' already exists")
      else .ok names

/-- Embeds `RegistryInit` from src/commands/registry.go: validate the name
and URL, check the index for a duplicate, clone, require the clone empty,
append the name to the index file, write the registry descriptor, and
commit and push; failures after the clone remove the clone directory (the
index write is not rolled back). -/
def RegistryInit (env : InitEnv) (w : InitWorld) (registryName gitURL : String) :
    Except String Unit × InitWorld :=
  if registryName = "" then (.error "registry name cannot be empty", w)
  else if gitURL = "" then (.error "git URL cannot be empty", w)
  else
    match loadAndCheckRegistries w.indexFile env.decodeNames registryName with
    | .error e => (.error e, w)
    | .ok names =>
      if env.cloneFails then
        (.error "failed to clone repository",
         { w with log := w.log ++ [.cloneRepo gitURL registryName] })
      else
        let w1 : InitWorld := { w with log := w.log ++ [.cloneRepo gitURL registryName] }
        match env.nonEmptyFile with
        | some f =>
          (.error ("repository cloned is not empty (contains " ++ f ++ ")"),
           { w1 with log := w1.log ++ [.removeDir registryName] })
        | none =>
          let newIndex := env.encodeNames (names ++ [registryName])
          let w2 : InitWorld :=
            { indexFile := some newIndex, log := w1.log ++ [.writeIndex newIndex] }
          let meta := env.encodeRegistry registryName env.newUUID gitURL
          let w3 : InitWorld := { w2 with log := w2.log ++ [.writeRegistryMeta meta] }
          if env.commitFails then
            (.error "failed to commit initial registry setup",
             { w3 with log := w3.log ++ [.removeDir registryName] })
          else if env.pushFails then
            (.error "failed to push initial commit",
             { w3 with log := w3.log ++ [.gitCommit, .removeDir registryName] })
          else (.ok (), { w3 with log := w3.log ++ [.gitCommit, .gitPush] })

/-- C2: initializing a registry whose name is already in the decoded index
fails with the "already exists" error and returns the world untouched: the
index file is byte-for-byte the same and no clone or write effect was
issued. -/
theorem registryInit_duplicate (env : InitEnv) (w : InitWorld)
    (registryName gitURL contents : String) (names : List String)
    (hn : registryName ≠ "") (hu : gitURL ≠ "")
    (hfile : w.indexFile = some contents)
    (hdec : env.decodeNames contents = some names)
    (hmem : registryName ∈ names) :
    RegistryInit env w registryName gitURL
      = (.error ("registry '" ++ registryName ++ "' already exists"), w) := by
  simp only [RegistryInit, if_neg hn, if_neg hu, loadAndCheckRegistries, hfile, hdec,
    if_pos hmem]

/-- Witness for C2 at a one-entry index containing "myreg". -/
theorem registryInit_duplicate_witness :
    RegistryInit
      ⟨fun _ => some ["myreg"], fun _ => "", fun _ _ _ => "", "uuid",
       false, none, false, false⟩
      ⟨some "idx", []⟩ "myreg" "https://git.example.com/myreg"
      = (.error "registry 'myreg' already exists", ⟨some "idx", []⟩) :=
  registryInit_duplicate
    ⟨fun _ => some ["myreg"], fun _ => "", fun _ _ _ => "", "uuid",
     false, none, false, false⟩
    ⟨some "idx", []⟩ "myreg" "https://git.example.com/myreg" "idx" ["myreg"]
    (by decide) (by decide) rfl rfl (by decide)

/-! ## Registry metadata loading (src/commands/registry.go,
loadRegistryMetadata) -/

/-- Embeds the Go struct `types.Registry`: `Packages` is `none` when the
JSON field was absent or null (a nil Go map). -/
structure RegistryData where
  Name : String
  UUID : String
  GitURL : String
  Packages : Option (List (String × String))
deriving DecidableEq

/-- Embeds `loadRegistryMetadata` from src/commands/registry.go: reading and
JSON-decoding registry.json are modelled by the file contents and a decode
function; an unreadable or unparsable file is an error, and a decoded value
with a nil package map has it replaced by an empty one. -/
def loadRegistryMetadata (fileContents : Option String)
    (decode : String → Option RegistryData) : Except String RegistryData :=
  match fileContents with
  | none => .error "error reading registry.json"
  | some data =>
    match decode data with
    | none => .error "error parsing registry.json"
    | some registry =>
      match registry.Packages with
      | none => .ok { registry with Packages := some [] }
      | some _ => .ok registry

/-- C8: every successful load returns a registry whose package mapping is
non-nil: an absent or null mapping is replaced by the empty one, and a
present mapping is kept as is. -/
theorem loadRegistryMetadata_packages_init (fileContents : Option String)
    (decode : String → Option RegistryData) (r : RegistryData)
    (h : loadRegistryMetadata fileContents decode = .ok r) :
    ∃ pkgs, r.Packages = some pkgs ∧
      ∀ d reg, fileContents = some d → decode d = some reg →
        (reg.Packages = none → pkgs = []) ∧ (∀ m, reg.Packages = some m → pkgs = m) := by
  cases fileContents with
  | none => exact absurd h (by simp [loadRegistryMetadata])
  | some d =>
    cases hdec : decode d with
    | none =>
      rw [loadRegistryMetadata, hdec] at h
      exact absurd h (by simp)
    | some reg =>
      simp only [loadRegistryMetadata, hdec] at h
      cases hp : reg.Packages with
      | none =>
        rw [hp] at h
        simp only [Except.ok.injEq] at h
        refine ⟨[], by rw [← h], ?_⟩
        intro d' reg' hd' hreg'
        cases hd'
        rw [hdec] at hreg'
        cases hreg'
        exact ⟨fun _ => rfl, fun m hm => absurd hm (by rw [hp]; simp)⟩
      | some m =>
        rw [hp] at h
        simp only [Except.ok.injEq] at h
        refine ⟨m, by rw [← h, hp], ?_⟩
        intro d' reg' hd' hreg'
        cases hd'
        rw [hdec] at hreg'
        cases hreg'
        refine ⟨fun hnone => absurd hnone (by rw [hp]; simp), fun m' hm' => ?_⟩
        rw [hp] at hm'
        cases hm'
        rfl

/-- Witness for C8 at a descriptor decoded with a nil package map. -/
theorem loadRegistryMetadata_packages_init_witness :
    ∃ pkgs, (RegistryData.mk "reg" "uuid" "url" (some [])).Packages = some pkgs ∧
      ∀ d reg, (some "contents" : Option String) = some d →
        (fun _ => some (RegistryData.mk "reg" "uuid" "url" none)) d = some reg →
        (reg.Packages = none → pkgs = []) ∧ (∀ m, reg.Packages = some m → pkgs = m) :=
  loadRegistryMetadata_packages_init (some "contents")
    (fun _ => some (RegistryData.mk "reg" "uuid" "url" none))
    (RegistryData.mk "reg" "uuid" "url" (some [])) rfl

/-! ## Version removal (src/commands/registry.go, RegistryRm) -/

/-- Embeds `RegistryRm` from src/commands/registry.go (lines 688-689): the
function body is empty, so it reads nothing, writes nothing and prints
nothing; the registry state — here the per-package version catalogs — is
left unchanged whatever the arguments. -/
def RegistryRm (args : List String) (catalogs : List (String × List String)) :
    List (String × List String) :=
  catalogs

/-- C9: evaluating the unimplemented `RegistryRm` at the failing input of
TestRegistryRmVersion: asked to remove "v1.0.0" from the catalog
["v1.0.0", "v1.1.0"] of "mypkg", it leaves the catalog unchanged (the
removed version is still present) instead of producing ["v1.1.0"]. -/
theorem registryRm_stub_noop :
    RegistryRm ["myreg", "mypkg", "v1.0.0"] [("mypkg", ["v1.0.0", "v1.1.0"])]
      = [("mypkg", ["v1.0.0", "v1.1.0"])] :=
  rfl
